import Mathlib

/-!
# A verification development for the libovsdb core (eBay/libovsdb)

This file gives a shallow embedding, in Lean 4, of the core of the libovsdb
client library: the schema model and its JSON decoder (`schema.go`), the
schema-directed record binder (`orm.go`) and the concurrent table cache
(`cache.go`), together with theorems about their behaviour.

Modelling conventions:
* Go maps become association lists (`List (String × α)`); Go structs become
  Lean structures; fallible Go functions return `Except String α`; Go code
  that can abort with a runtime panic returns a dedicated result type with a
  `panic` constructor.
* JSON numbers are modelled as integers (`Int`); the Go `float64` native is
  modelled as `Rat` (only equality with zero and deep equality are ever used
  by the code under study).
* Reflection over user record types is modelled by an explicit list of
  fields, each carrying the Go field name, its `ovs` struct tag (the empty
  string standing for an untagged field), its declared native shape
  (`reflect.Type`) and its current value.
-/

namespace Libovsdb

/-- Association-list lookup, mirroring a Go map read `v, ok := m[k]`. -/
def findA {α : Type _} : List (String × α) → String → Option α
  | [], _ => none
  | (k, v) :: rest, key => if k = key then some v else findA rest key

/-- Association-list update, mirroring a Go map write `m[k] = v`. -/
def setA {α : Type _} : List (String × α) → String → α → List (String × α)
  | [], k, v => [(k, v)]
  | (k', v') :: rest, k, v =>
    if k' = k then (k, v) :: rest else (k', v') :: setA rest k v

/-- Association-list removal, mirroring Go `delete(m, k)`. -/
def eraseA {α : Type _} : List (String × α) → String → List (String × α)
  | [], _ => []
  | (k', v') :: rest, k =>
    if k' = k then eraseA rest k else (k', v') :: eraseA rest k

/-! ## Wire values (`OvsSet`, `OvsMap`, `UUID`, atomic scalars)

A wire value is a JSON-decoded OVSDB value: an atomic scalar, a UUID
wrapper (`UUID{GoUUID: …}`), an ordered set wrapper (`OvsSet`) or an ordered
map wrapper (`OvsMap`). Set elements and map keys/values are atomic. -/

/-- An atomic wire value; `uuid s` is the `UUID{GoUUID: s}` wrapper. -/
inductive OvsAtom where
  | int (i : Int)
  | real (r : Rat)
  | bool (b : Bool)
  | str (s : String)
  | uuid (s : String)
  deriving DecidableEq, Repr

/-- A wire value: a bare atom, an `OvsSet` or an `OvsMap`. -/
inductive OvsValue where
  | atom (a : OvsAtom)
  | set (l : List OvsAtom)
  | map (l : List (OvsAtom × OvsAtom))
  deriving DecidableEq, Repr

/-! ## Table cache (`cache.go`)

`Row` is `libovsdb.Row`: a wire row, i.e. a mapping from column name to wire
value (the Go struct wraps a `map[string]interface{}` in its `Fields`
member; the distinction between a nil and an allocated empty map is not
modelled, so the zero row `Row{}` is the empty list). -/

/-- A wire row: column name ↦ wire value.  The empty list is the zero row
`Row{}` used by `TableCache.populate` to detect deletions. -/
abbrev Row := List (String × OvsValue)

/-- One entry of a table update: the old and the new row (RFC 7047 §4.1.6). -/
structure RowUpdate where
  old : Row
  new : Row
  deriving DecidableEq, Repr

/-- The per-table part of a `TableUpdates` notification: uuid ↦ row update. -/
structure TableUpdate where
  rows : List (String × RowUpdate)
  deriving DecidableEq, Repr

/-- A whole update notification: table name ↦ `TableUpdate`. -/
structure TableUpdates where
  updates : List (String × TableUpdate)
  deriving DecidableEq, Repr

/-- A cache event dispatched to one registered handler (identified by its
position in the handlers list); `TableCache.populate` spawns one
`OnAdd`/`OnUpdate`/`OnDelete` call per `(handler, event)` pair. -/
inductive Event where
  | add (handler : Nat) (table : String) (row : Row)
  | update (handler : Nat) (table : String) (old new : Row)
  | delete (handler : Nat) (table : String) (row : Row)
  deriving DecidableEq, Repr

/-- The table cache: table name ↦ row cache (uuid ↦ row), plus the list of
registered event handlers. Mutexes guard the Go original; the model applies
a whole batch atomically, which is what the locking achieves. -/
structure TableCache where
  cache : List (String × List (String × Row))
  handlers : List Nat
  deriving DecidableEq, Repr

/-- The body of the per-row loop of `TableCache.populate`: given the row
cache and events accumulated so far, process one `(uuid, {old, new})` entry.
`reflect.DeepEqual(row.New, Row{})` is the emptiness test on the new row. -/
def applyRowUpdate (handlers : List Nat) (table : String)
    (st : List (String × Row) × List Event) (uuid : String) (ru : RowUpdate) :
    List (String × Row) × List Event :=
  let (rc, evs) := st
  if ru.new ≠ [] then
    match findA rc uuid with
    | some existing =>
      if ru.new ≠ existing then
        (setA rc uuid ru.new, evs ++ handlers.map (fun h => Event.update h table ru.old ru.new))
      else
        -- no diff
        (rc, evs)
    | none =>
      (setA rc uuid ru.new, evs ++ handlers.map (fun h => Event.add h table ru.new))
  else
    -- delete from cache
    (eraseA rc uuid, evs ++ handlers.map (fun h => Event.delete h table ru.old))

/-- The body of the per-table loop of `TableCache.populate`: fetch the row
cache for the table, creating it on first sight, fold the row updates
through `applyRowUpdate`, and store the result back. -/
def populateTableStep (acc : TableCache × List Event) (entry : String × TableUpdate) :
    TableCache × List Event :=
  let tc := acc.1
  let evs := acc.2
  let table := entry.1
  let updates := entry.2
  let tCache := (findA tc.cache table).getD []
  let res := updates.rows.foldl
    (fun st p => applyRowUpdate tc.handlers table st p.1 p.2) (tCache, [])
  ({ tc with cache := setA tc.cache table res.1 }, evs ++ res.2)

/-- `TableCache.populate`: apply a `TableUpdates` batch to the cache. A row
cache for a table is created on first sight of an update for that table;
each row entry is processed by `applyRowUpdate`. Returns the new cache and
the list of dispatched `(handler, event)` pairs, in dispatch order. -/
def populate (t : TableCache) (tableUpdates : TableUpdates) : TableCache × List Event :=
  tableUpdates.updates.foldl populateTableStep (t, [])

/-! ## Schema model (`schema.go`)

`ExtendedType` is a string type in the source; for a bare-string column
type the decoder stores that string verbatim. -/

/-- Extended column type (atomic RFC 7047 types plus enum, map, set). -/
abbrev ExtendedType := String

/-- `TypeInteger` is equivalent to `int`. -/
def TypeInteger : ExtendedType := "integer"
/-- `TypeReal` is equivalent to `float64`. -/
def TypeReal : ExtendedType := "real"
/-- `TypeBoolean` is equivalent to `bool`. -/
def TypeBoolean : ExtendedType := "boolean"
/-- `TypeString` is equivalent to `string`. -/
def TypeString : ExtendedType := "string"
/-- `TypeUUID` is equivalent to `libovsdb.UUID`. -/
def TypeUUID : ExtendedType := "uuid"
/-- `TypeEnum` is an enumerator of the type of `Key`. -/
def TypeEnum : ExtendedType := "enum"
/-- `TypeMap` is a map typed by `Key` and `Value`. -/
def TypeMap : ExtendedType := "map"
/-- `TypeSet` is a set typed by `Key`. -/
def TypeSet : ExtendedType := "set"

/-- `Unlimited` expresses an unlimited `Max` (the sentinel -1). -/
def Unlimited : Int := -1

/-- A JSON value. Numbers are modelled as integers: no claim under study
depends on non-integral JSON numbers. -/
inductive Json where
  | null
  | bool (b : Bool)
  | num (n : Int)
  | str (s : String)
  | arr (elems : List Json)
  | obj (fields : List (String × Json))

/-- Member access on a JSON object. -/
def Json.getField : Json → String → Option Json
  | .obj fs, k => findA fs k
  | _, _ => none

/-- `BaseType` (RFC 7047 base-type): an atomic type plus constraints. The
`enum` member is parsed manually by the column decoder (its struct tag in
the source is `"_"`, so the generic decoder never fills it); numeric
constraint bounds are modelled as integers. -/
structure BaseType where
  type : ExtendedType := ""
  enum : List Json := []
  minReal : Int := 0
  maxReal : Int := 0
  minInteger : Int := 0
  maxInteger : Int := 0
  minLength : Int := 0
  maxLength : Int := 0
  refTable : String := ""
  refType : String := ""

/-- `ColumnType`: the object form of a column `type`, with `key`, optional
`value`, `min` and `max` (`Unlimited` = -1 for `"unlimited"`). -/
structure ColumnType where
  key : BaseType
  value : Option BaseType
  min : Int
  max : Int

/-- `ColumnSchema`: a column with its normalised extended type. `typeObj`
is present exactly when the schema's `type` member was an object. -/
structure ColumnSchema where
  name : String := ""
  type : ExtendedType := ""
  typeObj : Option ColumnType := none
  ephemeral : Bool := false
  mutable : Bool := false

/-- `TableSchema`: column map plus the declared indexes in order. -/
structure TableSchema where
  columns : List (String × ColumnSchema)
  indexes : List (List String)

/-- `DatabaseSchema`: name, version and the table map. -/
structure DatabaseSchema where
  name : String := ""
  version : String := ""
  tables : List (String × TableSchema)

/-- `DatabaseSchema.GetColumn`: the `_uuid` column is synthesized with type
uuid before the table's own column map is consulted. -/
def DatabaseSchema.GetColumn (schema : DatabaseSchema) (tableName columnName : String) :
    Except String ColumnSchema :=
  match findA schema.tables tableName with
  | none => .error ("Table not found in schema " ++ tableName)
  | some table =>
    if columnName = "_uuid" then
      .ok { name := "_uuid", type := TypeUUID }
    else
      match findA table.columns columnName with
      | none => .error ("Column not found in schema " ++ columnName)
      | some column => .ok column

/-- Modelled from the spec: `TableSchema.GetColumn` is called by the record
binder (`orm.go`) but its definition is not among the provided sources.
Per the spec, "The implicit column `_uuid` is always present and typed as a
UUID; every TableSchema must synthesize it if not explicit", mirroring
`DatabaseSchema.GetColumn`. -/
def TableSchema.GetColumn (table : TableSchema) (columnName : String) :
    Except String ColumnSchema :=
  if columnName = "_uuid" then
    .ok { name := "_uuid", type := TypeUUID }
  else
    match findA table.columns columnName with
    | none => .error ("Column not found in schema " ++ columnName)
    | some column => .ok column

/-! ## The column decoder (`ColumnSchema.UnmarshalJSON`)

The decoder is modelled stage by stage. Go's `encoding/json` conventions
respected by the model: decoding a JSON `null` into a string, boolean or
integer field succeeds and leaves the field unchanged; decoding a
mismatched JSON type into such a field fails; unknown object members are
ignored; decoding any non-object into a struct fails. A Go runtime panic
(nil-pointer dereference, out-of-range index, failed type assertion) is a
distinct `DecodeResult.panic` outcome. -/

/-- Outcome of `ColumnSchema.UnmarshalJSON`: a decoded column, an error, or
a runtime panic. -/
inductive DecodeResult where
  | ok (column : ColumnSchema)
  | err (msg : String)
  | panic (msg : String)

/-- Decode an optional string member (Go: unmarshal into a `string` field;
absent or `null` keeps the zero value). -/
def decodeStrField (fs : List (String × Json)) (k : String) (dflt : String) : Option String :=
  match findA fs k with
  | none => some dflt
  | some .null => some dflt
  | some (.str s) => some s
  | some _ => none

/-- Decode an optional boolean member. -/
def decodeBoolField (fs : List (String × Json)) (k : String) (dflt : Bool) : Option Bool :=
  match findA fs k with
  | none => some dflt
  | some .null => some dflt
  | some (.bool b) => some b
  | some _ => none

/-- Decode an optional integer member. -/
def decodeIntField (fs : List (String × Json)) (k : String) (dflt : Int) : Option Int :=
  match findA fs k with
  | none => some dflt
  | some .null => some dflt
  | some (.num n) => some n
  | some _ => none

/-- The transient `ColumnJSON` struct: the known members of a column
object, with the raw `type` member kept for manual parsing. -/
structure ColumnJSON where
  name : String
  typeRawMsg : Option Json
  ephemeral : Bool
  mutable : Bool

/-- Unmarshal the known keys of a column object into `ColumnJSON`. -/
def decodeColumnJSON (data : Json) : Option ColumnJSON :=
  match data with
  | .obj fs => do
    let name ← decodeStrField fs "name" ""
    let eph ← decodeBoolField fs "ephemeral" false
    let mu ← decodeBoolField fs "mutable" false
    pure { name := name, typeRawMsg := findA fs "type", ephemeral := eph, mutable := mu }
  | _ => none

/-- The transient `ColumnTypeJSON` struct: raw `key`, `value` and `max`
members plus the decoded `min`. The source decodes `min` here but never
copies it into `ColumnType.min`, which keeps its initial value 1. -/
structure ColumnTypeJSON where
  keyRawMsg : Option Json
  valueRawMsg : Option Json
  min : Int
  maxRawMsg : Option Json

/-- Unmarshal the raw `type` member into `ColumnTypeJSON`. An absent raw
message fails (empty input); a JSON `null` succeeds leaving all members
zero; a non-object fails. -/
def decodeColumnTypeJSON (typeRaw : Option Json) : Option ColumnTypeJSON :=
  match typeRaw with
  | none => none
  | some .null => some { keyRawMsg := none, valueRawMsg := none, min := 0, maxRawMsg := none }
  | some (.obj fs) => do
    let mn ← decodeIntField fs "min" 0
    pure { keyRawMsg := findA fs "key", valueRawMsg := findA fs "value", min := mn,
           maxRawMsg := findA fs "max" }
  | some _ => none

/-- The `max` stage: a string must be `"unlimited"` (mapped to the
`Unlimited` sentinel); otherwise an integer is expected; an absent member
or a JSON `null` keeps the initial value 1. -/
def decodeMax (maxRawMsg : Option Json) : Except String Int :=
  match maxRawMsg with
  | none => .ok 1
  | some (.str s) =>
    if s = "unlimited" then .ok Unlimited
    else .error ("Unknown max value " ++ s)
  | some (.num n) => .ok n
  | some .null => .ok 1
  | some _ => .error "Cannot parse max field"

/-- Unmarshal a JSON value into a fresh `BaseType` (the generic decoder:
the `enum` member carries struct tag `"_"` and is left empty here). -/
def decodeBaseType (j : Json) : Option BaseType :=
  match j with
  | .obj fs => do
    let ty ← decodeStrField fs "type" ""
    let rTable ← decodeStrField fs "refTable" ""
    let rType ← decodeStrField fs "refType" ""
    let minI ← decodeIntField fs "minInteger" 0
    let maxI ← decodeIntField fs "maxInteger" 0
    let minL ← decodeIntField fs "minLength" 0
    let maxL ← decodeIntField fs "maxLength" 0
    let minR ← decodeIntField fs "minReal" 0
    let maxR ← decodeIntField fs "maxReal" 0
    pure { type := ty, enum := [], minReal := minR, maxReal := maxR, minInteger := minI,
           maxInteger := maxI, minLength := minL, maxLength := maxL,
           refTable := rTable, refType := rType }
  | _ => none

/-- The `key` stage: first try to unmarshal the raw `key` into the
`Key.Type` string (a `null` is a successful no-op), then fall back to a
full `BaseType` object; the boolean records `hasKeyObj`. -/
def decodeKeyStep (keyRaw : Json) : Except String (BaseType × Bool) :=
  match keyRaw with
  | .str s => .ok ({ type := s }, false)
  | .null => .ok ({ type := "" }, false)
  | _ =>
    match decodeBaseType keyRaw with
    | some bt => .ok (bt, true)
    | none => .error "Cannot parse key object"

/-- The `value` stage, analogous to the `key` stage (a fresh `BaseType` is
allocated first, so a `null` leaves it zeroed). -/
def decodeValueStep (valueRaw : Json) : Except String BaseType :=
  match valueRaw with
  | .str s => .ok { type := s }
  | .null => .ok {}
  | _ =>
    match decodeBaseType valueRaw with
    | some bt => .ok bt
    | none => .error "Cannot parse value object"

/-- `ColumnSchema.UnmarshalJSON`: decode a column from its JSON form,
normalising the polymorphic `type` member into an extended type. -/
def unmarshalColumnSchema (data : Json) : DecodeResult :=
  match decodeColumnJSON data with
  | none => .err "Cannot parse column object"
  | some colJSON =>
    match colJSON.typeRawMsg with
    | some (.str ts) =>
      -- 'type' was a bare string: use it as the extended type
      .ok { name := colJSON.name, type := ts, typeObj := none,
            ephemeral := colJSON.ephemeral, mutable := colJSON.mutable }
    | typeRaw =>
      -- 'type' is an object; TypeObj is initialised with Min = 1, Max = 1,
      -- and the source never overwrites Min (colTypeJSON.Min is unused)
      let minV : Int := 1
      match decodeColumnTypeJSON typeRaw with
      | none => .err "Cannot parse type object"
      | some colTypeJSON =>
        match decodeMax colTypeJSON.maxRawMsg with
        | .error e => .err e
        | .ok maxV =>
          match colTypeJSON.keyRawMsg with
          | none =>
            -- the source dereferences *colTypeJSON.KeyRawMsg unconditionally
            .panic "runtime error: invalid memory address or nil pointer dereference"
          | some keyRaw =>
            match decodeKeyStep keyRaw with
            | .error e => .err e
            | .ok (key0, hasKeyObj) =>
              match colTypeJSON.valueRawMsg with
              | some valueRaw =>
                -- 'value' present: the native type is a map
                match decodeValueStep valueRaw with
                | .error e => .err e
                | .ok val =>
                  .ok { name := colJSON.name, type := TypeMap,
                        typeObj := some { key := key0, value := some val, min := minV, max := maxV },
                        ephemeral := colJSON.ephemeral, mutable := colJSON.mutable }
              | none =>
                -- 'enum' in a key object makes the column an enumerator
                let enumVal : Option Json :=
                  if hasKeyObj then
                    match keyRaw.getField "enum" with
                    | some .null => none
                    | o => o
                  else none
                match enumVal with
                | some (.arr oSet) =>
                  -- the OVSDB set encoding: the element at index 1 is the list
                  match oSet.get? 1 with
                  | none => .panic "runtime error: index out of range"
                  | some inner =>
                    match inner with
                    | .arr innerSet =>
                      .ok { name := colJSON.name, type := TypeEnum,
                            typeObj := some { key := { key0 with enum := innerSet },
                                              value := none, min := minV, max := maxV },
                            ephemeral := colJSON.ephemeral, mutable := colJSON.mutable }
                    | _ => .panic "interface conversion: interface is not a slice"
                | some single =>
                  -- a bare element is a list of exactly one element
                  .ok { name := colJSON.name, type := TypeEnum,
                        typeObj := some { key := { key0 with enum := [single] },
                                          value := none, min := minV, max := maxV },
                        ephemeral := colJSON.ephemeral, mutable := colJSON.mutable }
                | none =>
                  -- infer atomic vs set from min and max
                  .ok { name := colJSON.name,
                        type := if minV = 1 ∧ maxV = 1 then key0.type else TypeSet,
                        typeObj := some { key := key0, value := none, min := minV, max := maxV },
                        ephemeral := colJSON.ephemeral, mutable := colJSON.mutable }

/-! ## Value marshaller

The marshaller (`OvsToNative`, `NativeToOvs`, `IsDefaultValue`,
`nativeType`) is called by the record binder but its definition is not
among the provided sources; it is modelled from the spec (§4.2): the native
shape table, the wire→native and native→wire rules, the default-value rule
and the enum-domain error. Numeric range constraints are not modelled (the
schema model cannot distinguish declared from absent bounds), and no claim
under study depends on them. -/

/-- The shape of an atomic native value. -/
inductive AtomShape where
  | int
  | real
  | bool
  | str
  deriving DecidableEq

/-- The native shape of a column (`reflect.Type` of the bound field):
an atom, an ordered sequence of atoms, or a keyed mapping of atoms. -/
inductive NativeShape where
  | atom (a : AtomShape)
  | set (elem : AtomShape)
  | map (key value : AtomShape)
  deriving DecidableEq

/-- An atomic native value. -/
inductive NativeAtom where
  | int (i : Int)
  | real (r : Rat)
  | bool (b : Bool)
  | str (s : String)
  deriving DecidableEq

/-- A native value: an atom, a sequence (Go slice) or a mapping (Go map;
modelled as an ordered association list). -/
inductive NativeValue where
  | atom (a : NativeAtom)
  | set (l : List NativeAtom)
  | map (m : List (NativeAtom × NativeAtom))
  deriving DecidableEq

/-- Modelled from the spec: the atomic native shape of an atomic extended
type (§4.2 native shape table; uuid natives are canonical strings). -/
def atomShapeOfType (t : ExtendedType) : Option AtomShape :=
  match t with
  | "integer" => some .int
  | "real" => some .real
  | "boolean" => some .bool
  | "string" => some .str
  | "uuid" => some .str
  | _ => none

/-- Modelled from the spec: `nativeType` (§4.2 native shape table) — the
Go type a bound field must declare for a column. Not among the provided
sources; only its callers in `orm.go` are. -/
def nativeType (column : ColumnSchema) : Option NativeShape :=
  match column.type with
  | "enum" => some (.atom .str)
  | "set" =>
    column.typeObj.bind fun tobj => (atomShapeOfType tobj.key.type).map .set
  | "map" =>
    column.typeObj.bind fun tobj =>
      (atomShapeOfType tobj.key.type).bind fun k =>
        (tobj.value.bind fun v => atomShapeOfType v.type).map fun v => .map k v
  | t => (atomShapeOfType t).map .atom

/-- True iff a native value is the zero of its shape: empty string,
numeric zero, false, empty sequence, empty mapping. -/
def isDefaultNative (value : NativeValue) : Bool :=
  match value with
  | .atom (.int i) => i = 0
  | .atom (.real r) => r = 0
  | .atom (.bool b) => !b
  | .atom (.str s) => s = ""
  | .set l => l.isEmpty
  | .map m => m.isEmpty

/-- Modelled from the spec: `IsDefaultValue(col, nativeValue)` — "True iff
the native value equals the zero of its shape" (§4.2). The column argument
mirrors the source signature. -/
def IsDefaultValue (_column : ColumnSchema) (value : NativeValue) : Bool :=
  isDefaultNative value

/-- Whether an enum domain (a list of decoded JSON values) admits a given
string native. -/
def enumAllows (domain : List Json) (s : String) : Bool :=
  domain.any fun j =>
    match j with
    | .str t => t = s
    | _ => false

/-- Native atom → wire atom, directed by the base atomic type (uuid
natives are wrapped in the UUID wrapper). -/
def nativeAtomToOvs (baseType : ExtendedType) (a : NativeAtom) : Except String OvsAtom :=
  match baseType, a with
  | "integer", .int i => .ok (.int i)
  | "real", .real r => .ok (.real r)
  | "boolean", .bool b => .ok (.bool b)
  | "string", .str s => .ok (.str s)
  | "uuid", .str s => .ok (.uuid s)
  | _, _ => .error "MarshalError: native atom does not match the base type"

/-- Wire atom → native atom, directed by the base atomic type (the UUID
wrapper becomes its inner string). -/
def ovsAtomToNative (baseType : ExtendedType) (a : OvsAtom) : Except String NativeAtom :=
  match baseType, a with
  | "integer", .int i => .ok (.int i)
  | "real", .real r => .ok (.real r)
  | "boolean", .bool b => .ok (.bool b)
  | "string", .str s => .ok (.str s)
  | "uuid", .uuid s => .ok (.str s)
  | _, _ => .error "MarshalError: wire atom does not match the base type"

/-- Modelled from the spec: `NativeToOvs(col, nativeValue)` (§4.2
native→wire rules). Atomic natives wrap identically, uuids become the UUID
wrapper, sequences become set wire values (the set form is emitted),
mappings become map wire values; an enum value outside the declared domain
and any shape mismatch are errors. Not among the provided sources. -/
def NativeToOvs (column : ColumnSchema) (value : NativeValue) : Except String OvsValue :=
  match column.type, value with
  | "integer", .atom (.int i) => .ok (.atom (.int i))
  | "real", .atom (.real r) => .ok (.atom (.real r))
  | "boolean", .atom (.bool b) => .ok (.atom (.bool b))
  | "string", .atom (.str s) => .ok (.atom (.str s))
  | "uuid", .atom (.str s) => .ok (.atom (.uuid s))
  | "enum", .atom (.str s) =>
    match column.typeObj with
    | some tobj =>
      if enumAllows tobj.key.enum s then .ok (.atom (.str s))
      else .error "EnumDomainError: value outside the declared domain"
    | none => .error "MarshalError: enum column without a type object"
  | "set", .set l =>
    match column.typeObj with
    | some tobj => (l.mapM (nativeAtomToOvs tobj.key.type)).map OvsValue.set
    | none => .error "MarshalError: set column without a type object"
  | "map", .map m =>
    match column.typeObj with
    | some tobj =>
      match tobj.value with
      | some vb =>
        (m.mapM fun (p : NativeAtom × NativeAtom) => do
          let k ← nativeAtomToOvs tobj.key.type p.1
          let v ← nativeAtomToOvs vb.type p.2
          pure (k, v)).map OvsValue.map
      | none => .error "MarshalError: map column without a value type"
    | none => .error "MarshalError: map column without a type object"
  | _, _ => .error "MarshalError: native value does not match the column type"

/-- Modelled from the spec: `OvsToNative(col, wireValue)` (§4.2 wire→native
rules). Atomic scalars pass through, the UUID wrapper becomes its inner
string, a set wire value becomes a sequence preserving order, a bare atomic
for a set column becomes a one-element sequence, a map wire value becomes a
mapping; an enum value outside the declared domain and any shape mismatch
are errors. Not among the provided sources. -/
def OvsToNative (column : ColumnSchema) (value : OvsValue) : Except String NativeValue :=
  match column.type, value with
  | "integer", .atom (.int i) => .ok (.atom (.int i))
  | "real", .atom (.real r) => .ok (.atom (.real r))
  | "boolean", .atom (.bool b) => .ok (.atom (.bool b))
  | "string", .atom (.str s) => .ok (.atom (.str s))
  | "uuid", .atom (.uuid s) => .ok (.atom (.str s))
  | "enum", .atom (.str s) =>
    match column.typeObj with
    | some tobj =>
      if enumAllows tobj.key.enum s then .ok (.atom (.str s))
      else .error "EnumDomainError: value outside the declared domain"
    | none => .error "MarshalError: enum column without a type object"
  | "set", v =>
    match column.typeObj with
    | some tobj =>
      match v with
      | .set l => (l.mapM (ovsAtomToNative tobj.key.type)).map NativeValue.set
      | .atom a => (ovsAtomToNative tobj.key.type a).map fun n => NativeValue.set [n]
      | .map _ => .error "MarshalError: map wire value for a set column"
    | none => .error "MarshalError: set column without a type object"
  | "map", .map m =>
    match column.typeObj with
    | some tobj =>
      match tobj.value with
      | some vb =>
        (m.mapM fun (p : OvsAtom × OvsAtom) => do
          let k ← ovsAtomToNative tobj.key.type p.1
          let v ← ovsAtomToNative vb.type p.2
          pure (k, v)).map NativeValue.map
      | none => .error "MarshalError: map column without a value type"
    | none => .error "MarshalError: map column without a type object"
  | _, _ => .error "MarshalError: wire value does not match the column type"

/-! ## Record binder (`orm.go`)

A user record type and instance are modelled together as a list of fields,
in declaration order. `tag` is the value of the `ovs` struct tag (`""` for
an untagged field), `shape` the field's declared Go type, `value` its
current contents. -/

/-- One field of a user record: Go field name, `ovs` tag, declared native
shape and current value. -/
structure StructField where
  fname : String
  tag : String
  shape : NativeShape
  value : NativeValue
  deriving DecidableEq

/-- A user record (type and instance): its fields in declaration order. -/
abbrev StructVal := List StructField

/-- `reflect.Value.FieldByName`: the field with the given name, if any
(Go field names are unique within a struct). -/
def findField (rec : StructVal) (fname : String) : Option StructField :=
  rec.find? fun f => f.fname = fname

/-- The current value of a named field. The default is never reached when
the name comes from a field map built over the same record. -/
def getFieldValue (rec : StructVal) (fname : String) : NativeValue :=
  match findField rec fname with
  | some f => f.value
  | none => .atom (.str "")

/-- `reflect.Value.Set` through `FieldByName`: replace the value of the
named field. -/
def setFieldValue (rec : StructVal) (fname : String) (v : NativeValue) : StructVal :=
  rec.map fun f => if f.fname = fname then { f with value := v } else f

/-- The loop of `ORMAPI.getORMFields`: walk the record's fields in order,
skipping untagged ones, resolving each tag against the table schema and
checking the declared shape, accumulating the column → field-name map. -/
def getORMFieldsGo (table : TableSchema) : List StructField → List (String × String) →
    Except String (List (String × String))
  | [], acc => .ok acc
  | field :: rest, acc =>
    if field.tag = "" then
      -- Untagged fields are ignored
      getORMFieldsGo table rest acc
    else
      match TableSchema.GetColumn table field.tag with
      | .error _ =>
        .error ("ORM Error. Object type contains field " ++ field.fname ++ " ovs tag "
          ++ field.tag ++ ": Column does not exist in schema")
      | .ok column =>
        match nativeType column with
        | some expType =>
          if expType = field.shape then
            getORMFieldsGo table rest (setA acc field.tag field.fname)
          else
            .error ("ORM Error. Object type contains field " ++ field.fname ++ " ovs tag "
              ++ field.tag ++ ": Wrong type, column expects a different native type")
        | none =>
          .error ("ORM Error. Object type contains field " ++ field.fname ++ " ovs tag "
            ++ field.tag ++ ": Wrong type, column expects a different native type")

/-- `ORMAPI.getORMFields`: the column → field-name map of a record type. -/
def getORMFields (table : TableSchema) (rec : StructVal) :
    Except String (List (String × String)) :=
  getORMFieldsGo table rec []

/-- The loop of `ORMAPI.GetData`: for every column of the table, if the
record has a binding and the wire row contains the column, convert and
write into the field. The assignability check compares the marshalled
value's Go type — `nativeType` of the column, by construction of
`OvsToNative` — with the destination field's declared type. -/
def getDataGo (fm : List (String × String)) (ovsData : List (String × OvsValue))
    (tableName : String) : List (String × ColumnSchema) → StructVal → Except String StructVal
  | [], rec => .ok rec
  | (name, column) :: rest, rec =>
    match findA fm name with
    | none =>
      -- the struct has no field to hold this value
      getDataGo fm ovsData tableName rest rec
    | some fieldName =>
      match findA ovsData name with
      | none =>
        -- ignore missing columns
        getDataGo fm ovsData tableName rest rec
      | some ovsElem =>
        match OvsToNative column ovsElem with
        | .error e =>
          .error ("Table " ++ tableName ++ ", Column " ++ name
            ++ ": Failed to extract native element: " ++ e)
        | .ok nativeElem =>
          match findField rec fieldName with
          | none =>
            .error ("Table " ++ tableName ++ ", Column " ++ name
              ++ ": Native value is not assignable to field " ++ fieldName)
          | some f =>
            if nativeType column = some f.shape then
              getDataGo fm ovsData tableName rest (setFieldValue rec fieldName nativeElem)
            else
              .error ("Table " ++ tableName ++ ", Column " ++ name
                ++ ": Native value is not assignable to field " ++ fieldName)

/-- `ORMAPI.GetData`: populate a record from a wire row. -/
def GetData (schema : DatabaseSchema) (tableName : String)
    (ovsData : List (String × OvsValue)) (result : StructVal) : Except String StructVal :=
  match findA schema.tables tableName with
  | none => .error ("Table not found in schema " ++ tableName)
  | some table =>
    match getORMFields table result with
    | .error e => .error e
    | .ok fields => getDataGo fields ovsData tableName table.columns result

/-- The loop of `ORMAPI.NewRow`: for every column of the table, if the
record has a binding, filter by the selected-columns list when non-empty,
omit default values when it is empty, and marshal the field. -/
def newRowGo (fm : List (String × String)) (rec : StructVal) (columns : List String)
    (tableName : String) : List (String × ColumnSchema) → List (String × OvsValue) →
    Except String (List (String × OvsValue))
  | [], row => .ok row
  | (name, column) :: rest, row =>
    match findA fm name with
    | none =>
      -- the struct has no field to hold this value
      newRowGo fm rec columns tableName rest row
    | some fieldName =>
      if columns ≠ [] ∧ ¬ name ∈ columns then
        newRowGo fm rec columns tableName rest row
      else
        let nativeElem := getFieldValue rec fieldName
        -- omit fields with default value except if the column was explicitly provided
        if columns = [] ∧ IsDefaultValue column nativeElem then
          newRowGo fm rec columns tableName rest row
        else
          match NativeToOvs column nativeElem with
          | .error e =>
            .error ("Table " ++ tableName ++ ", Column " ++ name
              ++ ": Failed to generate OvS element. " ++ e)
          | .ok ovsElem => newRowGo fm rec columns tableName rest (setA row name ovsElem)

/-- `ORMAPI.NewRow`: synthesize a wire row from a record. -/
def NewRow (schema : DatabaseSchema) (tableName : String) (rec : StructVal)
    (columns : List String) : Except String (List (String × OvsValue)) :=
  match findA schema.tables tableName with
  | none => .error ("Table not found in schema " ++ tableName)
  | some table =>
    match getORMFields table rec with
    | .error e => .error e
    | .ok fields => newRowGo fields rec columns tableName table.columns []

/-- Outcome of an operation that may also abort with a runtime panic. -/
inductive ORMResult (α : Type _) where
  | ok (val : α)
  | err (msg : String)
  | panic (msg : String)
  deriving DecidableEq

/-- One cell of an equality condition: `[column, "==", wireValue]`. -/
structure ConditionCell where
  column : String
  function : String
  value : OvsValue
  deriving DecidableEq

/-- The per-column validity test of `ORMAPI.getValidORMIndexes`: the column
must be bound in the field map, resolvable in the table schema, and the
bound field must hold a valid, non-default value. -/
def validIndexColumn (table : TableSchema) (fm : List (String × String)) (rec : StructVal)
    (col : String) : Bool :=
  match findA fm col with
  | none => false
  | some fieldName =>
    match TableSchema.GetColumn table col with
    | .error _ => false
    | .ok columnSchema =>
      match findField rec fieldName with
      | none => false
      | some f => ! IsDefaultValue columnSchema f.value

/-- `ORMAPI.getValidORMIndexes`: the candidate list is `[_uuid]` followed by
the table's declared indexes in order; keep those whose every column passes
`validIndexColumn`. -/
def getValidORMIndexes (table : TableSchema) (fm : List (String × String)) (rec : StructVal) :
    List (List String) :=
  (["_uuid"] :: table.indexes).filter fun idx => idx.all (validIndexColumn table fm rec)

/-- The cell-construction loop of `ORMAPI.NewCondition` over the chosen
index. The field name is read with a two-valued map lookup (`""` when the
column is unbound); `reflect.Value.Interface` on the resulting invalid
field value is a runtime panic. -/
def newConditionCells (schema : DatabaseSchema) (tableName : String)
    (fm : List (String × String)) (rec : StructVal) : List String → List ConditionCell →
    ORMResult (List ConditionCell)
  | [], acc => .ok acc
  | col :: rest, acc =>
    let fieldName := (findA fm col).getD ""
    match DatabaseSchema.GetColumn schema tableName col with
    | .error e => .err e
    | .ok column =>
      match findField rec fieldName with
      | none => .panic "reflect: call of reflect.Value.Interface on zero Value"
      | some f =>
        match NativeToOvs column f.value with
        | .error e => .err e
        | .ok ovsVal =>
          newConditionCells schema tableName fm rec rest (acc ++ [⟨col, "==", ovsVal⟩])

/-- `ORMAPI.NewCondition`: build an equality condition from a record. A
non-empty index override is used verbatim; otherwise the first valid index
of `getValidORMIndexes` is used. -/
def NewCondition (schema : DatabaseSchema) (tableName : String) (rec : StructVal)
    (index : List String) : ORMResult (List ConditionCell) :=
  match findA schema.tables tableName with
  | none => .err ("Table not found in schema " ++ tableName)
  | some table =>
    match getORMFields table rec with
    | .error e => .err e
    | .ok fields =>
      let condIndex : List (List String) :=
        if index ≠ [] then [index] else getValidORMIndexes table fields rec
      match condIndex with
      | [] => .err "Failed to find a valid index"
      | idx :: _ => newConditionCells schema tableName fields rec idx []

/-- The column scan of `ORMAPI.Equal` over one index: `m` is the `match`
variable; an unbound column on either side breaks out keeping `m`, a
mismatching pair of values breaks out with `false`, a matching pair sets
`m` and continues. -/
def scanCols (lfields rfields : List (String × String)) (lrec rrec : StructVal) :
    List String → Bool → Bool
  | [], m => m
  | col :: rest, m =>
    match findA lfields col with
    | none => m
    | some lfieldName =>
      let lval := getFieldValue lrec lfieldName
      match findA rfields col with
      | none => m
      | some rfieldName =>
        let rval := getFieldValue rrec rfieldName
        if lval = rval then scanCols lfields rfields lrec rrec rest true
        else false

/-- The inner loop of `ORMAPI.Equal`: walk the rhs index list looking for
an index deeply equal to `lidx`, scanning its columns; return true as soon
as the scan leaves the `match` variable true, else thread it onward. -/
def equalInner (lfields rfields : List (String × String)) (lrec rrec : StructVal)
    (lidx : List String) : List (List String) → Bool → Bool × Bool
  | [], m => (false, m)
  | ridx :: rest, m =>
    if ridx = lidx then
      match scanCols lfields rfields lrec rrec lidx m with
      | true => (true, true)
      | false => equalInner lfields rfields lrec rrec lidx rest false
    else equalInner lfields rfields lrec rrec lidx rest m

/-- The outer loop of `ORMAPI.Equal` over the lhs index list. -/
def equalOuter (lfields rfields : List (String × String)) (lrec rrec : StructVal)
    (rhsIndexes : List (List String)) : List (List String) → Bool → Bool
  | [], _ => false
  | lidx :: rest, m =>
    match equalInner lfields rfields lrec rrec lidx rhsIndexes m with
    | (true, _) => true
    | (false, m') => equalOuter lfields rfields lrec rrec rhsIndexes rest m'

/-- `ORMAPI.Equal`: whether two records denote the same database entity.
The valid index lists of both sides are each extended with the extra
`indexes` parameter, then compared pairwise. -/
def Equal (schema : DatabaseSchema) (tableName : String) (lhs rhs : StructVal)
    (indexes : List String) : Except String Bool :=
  match findA schema.tables tableName with
  | none => .error ("Table not found in schema " ++ tableName)
  | some table =>
    match getORMFields table lhs with
    | .error e => .error e
    | .ok lfields =>
      let lhsIndexes := getValidORMIndexes table lfields lhs ++ [indexes]
      match getORMFields table rhs with
      | .error e => .error e
      | .ok rfields =>
        let rhsIndexes := getValidORMIndexes table rfields rhs ++ [indexes]
        .ok (equalOuter lfields rfields lhs rhs rhsIndexes lhsIndexes false)

/-- The boolean a Go caller sees from `ORMAPI.Equal`: `false` alongside any
error. -/
def equalDecision (r : Except String Bool) : Bool :=
  match r with
  | .ok b => b
  | .error _ => false

/-! ## Specification-worded definitions

These definitions follow the words of the specification (not the source)
and exist to state refinement theorems comparing the two. -/

/-- The specification's validity test for a candidate index: "every column
is bound in the record and the bound field holds a non-default value". -/
def specValidCandidate (fm : List (String × String)) (rec : StructVal)
    (idx : List String) : Bool :=
  idx.all fun col =>
    match findA fm col with
    | none => false
    | some fieldName =>
      match findField rec fieldName with
      | none => false
      | some f => ! isDefaultNative f.value

/-- The specification's condition cells: `[column, "==", wireValue]` built
column by column from the chosen index. -/
def specCells (schema : DatabaseSchema) (tableName : String)
    (fm : List (String × String)) (rec : StructVal) : List String →
    ORMResult (List ConditionCell)
  | [] => .ok []
  | col :: rest =>
    match findA fm col with
    | none => .err "unbound column in a valid index"
    | some fieldName =>
      match findField rec fieldName with
      | none => .err "unbound column in a valid index"
      | some f =>
        match DatabaseSchema.GetColumn schema tableName col with
        | .error e => .err e
        | .ok column =>
          match NativeToOvs column f.value with
          | .error e => .err e
          | .ok ovsVal =>
            match specCells schema tableName fm rec rest with
            | .ok cells => .ok (⟨col, "==", ovsVal⟩ :: cells)
            | .err e => .err e
            | .panic p => .panic p

/-- `NewCondition` as the specification words it (no index override): the
candidate list is the singleton `[_uuid]` followed by the declared indexes
in schema order, the valid candidates are filtered by
`specValidCandidate`, the first valid candidate builds the cells, and no
valid candidate is the NoValidIndex error. -/
def NewConditionSpec (schema : DatabaseSchema) (tableName : String) (rec : StructVal) :
    ORMResult (List ConditionCell) :=
  match findA schema.tables tableName with
  | none => .err ("Table not found in schema " ++ tableName)
  | some table =>
    match getORMFields table rec with
    | .error e => .err e
    | .ok fm =>
      let candidates := ["_uuid"] :: table.indexes
      match candidates.filter (specValidCandidate fm rec) with
      | [] => .err "Failed to find a valid index"
      | idx :: _ => specCells schema tableName fm rec idx

/-- The frame relation of `GetData` (claim C7): a result field keeps the
input field's name, tag and shape, and its value is either unchanged or the
marshalled wire value of the column its own tag binds, that column being
present both in the table and in the wire row. -/
def getDataFrame (table : TableSchema) (ovsData : List (String × OvsValue))
    (f f' : StructField) : Prop :=
  f'.fname = f.fname ∧ f'.tag = f.tag ∧ f'.shape = f.shape ∧
    (f'.value = f.value ∨
      (f.tag ≠ "" ∧ ∃ column w, findA table.columns f.tag = some column ∧
        findA ovsData f.tag = some w ∧ OvsToNative column w = .ok f'.value))

/-! ## Concrete instances

Small schemas, records, rows and batches used by the closed theorems. The
schemas mirror the fixtures of the repository's tests. -/

/-- A bare-string `string` column. -/
def strCol : ColumnSchema := { name := "name", type := "string" }

/-- A `string` column declared through a type object. -/
def strColObj : ColumnSchema :=
  { type := "string", typeObj := some { key := { type := "string" }, value := none, min := 1, max := 1 } }

/-- A `map<string,string>` column. -/
def mapCol : ColumnSchema :=
  { type := "map", typeObj := some { key := { type := "string" }, value := some { type := "string" }, min := 1, max := Unlimited } }

/-- An `integer` column declared through a type object. -/
def intCol : ColumnSchema :=
  { type := "integer", typeObj := some { key := { type := "integer" }, value := none, min := 1, max := 1 } }

/-- The condition-test table: indexes `[["name"], ["composed_1", "composed_2"]]`. -/
def condTable : TableSchema :=
  { columns := [("name", strCol), ("composed_1", strColObj), ("composed_2", strColObj),
                ("int1", intCol), ("config", mapCol)],
    indexes := [["name"], ["composed_1", "composed_2"]] }

/-- A schema holding `condTable` as `"TestTable"`. -/
def condSchema : DatabaseSchema := { tables := [("TestTable", condTable)] }

/-- A record bound to `condTable` with given `_uuid`, `name`, `composed_1`,
`composed_2` and `int1` values. -/
def mkCondRec (id nm c1 c2 : String) (i1 : Int) : StructVal :=
  [⟨"ID", "_uuid", .atom .str, .atom (.str id)⟩,
   ⟨"MyName", "name", .atom .str, .atom (.str nm)⟩,
   ⟨"Comp1", "composed_1", .atom .str, .atom (.str c1)⟩,
   ⟨"Comp2", "composed_2", .atom .str, .atom (.str c2)⟩,
   ⟨"Int1", "int1", .atom .int, .atom (.int i1)⟩]

/-- A record binding only `_uuid`, with a non-default value. -/
def uuidOnlyRec : StructVal := [⟨"ID", "_uuid", .atom .str, .atom (.str "u0")⟩]

/-- A record binding only `name`, with a non-default value. -/
def nameOnlyRec : StructVal := [⟨"MyName", "name", .atom .str, .atom (.str "foo")⟩]

/-- A one-column wire row. -/
def exRow : Row := [("c", .atom (.str "x"))]

/-- A batch deleting uuid `"u"` from table `"T"` (empty new row). -/
def exBatch : TableUpdates := ⟨[("T", ⟨[("u", ⟨exRow, []⟩)]⟩)]⟩

/-- A cache holding `exRow` under `"T"`/`"u"`, with one handler. -/
def exCache : TableCache := ⟨[("T", [("u", exRow)])], [0]⟩

/-! # Theorems -/

/-! ### Association-list lemmas -/

@[simp] theorem findA_nil {α : Type _} (k : String) :
    findA ([] : List (String × α)) k = none := rfl

@[simp] theorem findA_cons {α : Type _} (k' : String) (v' : α) (rest : List (String × α))
    (k : String) : findA ((k', v') :: rest) k = if k' = k then some v' else findA rest k := rfl

theorem findA_setA {α : Type _} (l : List (String × α)) (k : String) (v : α) (k' : String) :
    findA (setA l k v) k' = if k = k' then some v else findA l k' := by
  induction l with
  | nil => by_cases h : k = k' <;> simp [setA, findA, h]
  | cons hd tl ih =>
    obtain ⟨hk, hv⟩ := hd
    by_cases h1 : hk = k
    · subst h1
      by_cases h2 : hk = k' <;> simp [setA, findA, h2]
    · by_cases h2 : k = k'
      · subst h2
        simp [setA, findA, h1, ih]
      · simp only [setA, if_neg h1, findA]
        by_cases h3 : hk = k' <;> simp [h3, ih, h2]

theorem findA_eraseA {α : Type _} (l : List (String × α)) (k k' : String) :
    findA (eraseA l k) k' = if k = k' then none else findA l k' := by
  induction l with
  | nil => by_cases h : k = k' <;> simp [eraseA, findA, h]
  | cons hd tl ih =>
    obtain ⟨hk, hv⟩ := hd
    by_cases h1 : hk = k
    · subst h1
      by_cases h2 : hk = k'
      · subst h2
        simpa [eraseA, findA] using ih
      · simp [eraseA, findA, h2, ih]
    · by_cases h2 : k = k'
      · subst h2
        simp [eraseA, findA, h1, ih]
      · simp only [eraseA, if_neg h1, findA]
        by_cases h3 : hk = k' <;> simp [h3, ih, h2]

theorem setA_setA {α : Type _} (l : List (String × α)) (k : String) (v : α) :
    setA (setA l k v) k v = setA l k v := by
  induction l with
  | nil => simp [setA]
  | cons hd tl ih =>
    obtain ⟨hk, hv⟩ := hd
    by_cases h1 : hk = k
    · simp [setA, h1]
    · simp [setA, h1, ih]

theorem eraseA_noop {α : Type _} (l : List (String × α)) (k : String)
    (h : findA l k = none) : eraseA l k = l := by
  induction l with
  | nil => rfl
  | cons hd tl ih =>
    obtain ⟨hk, hv⟩ := hd
    by_cases h1 : hk = k
    · simp [findA, h1] at h
    · simp only [findA, if_neg h1] at h
      simp [eraseA, h1, ih h]

theorem findA_isSome_mem {α : Type _} (l : List (String × α)) (k : String)
    (h : (findA l k).isSome) : k ∈ l.map Prod.fst := by
  induction l with
  | nil => simp [findA] at h
  | cons hd tl ih =>
    obtain ⟨hk, hv⟩ := hd
    by_cases h1 : hk = k
    · simp [h1]
    · simp only [findA, if_neg h1] at h
      simp [ih h]

/-! ### Cache lemmas -/

theorem populateTableStep_cached (acc : TableCache × List Event) (entry : String × TableUpdate)
    (t : String) (h : (findA acc.1.cache t).isSome ∨ entry.1 = t) :
    (findA (populateTableStep acc entry).1.cache t).isSome := by
  show (findA (setA acc.1.cache entry.1 _) t).isSome
  rw [findA_setA]
  rcases h with h | h
  · by_cases he : entry.1 = t <;> simp [he, h]
  · simp [h]

theorem populate_fold_cached (entries : List (String × TableUpdate)) (acc : TableCache × List Event)
    (t : String) (h : (findA acc.1.cache t).isSome ∨ t ∈ entries.map Prod.fst) :
    (findA (entries.foldl populateTableStep acc).1.cache t).isSome := by
  induction entries generalizing acc with
  | nil => simpa using h.resolve_right (by simp)
  | cons e rest ih =>
    simp only [List.foldl_cons]
    apply ih
    rcases h with h | h
    · exact Or.inl (populateTableStep_cached acc e t (Or.inl h))
    · simp only [List.map_cons, List.mem_cons] at h
      rcases h with h | h
      · exact Or.inl (populateTableStep_cached acc e t (Or.inr h.symm))
      · exact Or.inr h

/-- C1: for every update batch applied to the table cache and every entry
(table, uuid, old, new) in it: a non-empty `new` with the uuid absent is an
insert dispatching `OnAdd(table, new)` to every registered handler; a
non-empty `new` differing from the stored row replaces it and dispatches
`OnUpdate(table, old, new)`; a non-empty `new` equal to the stored row is a
no-op with no event; an empty `new` removes the uuid and dispatches
`OnDelete(table, old)`. A per-table row cache is created on first sight of
an update for that table. -/
theorem cache_populate_update_semantics
    (handlers : List Nat) (table uuid : String) (rc : List (String × Row))
    (evs : List Event) (old new : Row) :
    (new ≠ [] → findA rc uuid = none →
      applyRowUpdate handlers table (rc, evs) uuid ⟨old, new⟩ =
        (setA rc uuid new, evs ++ handlers.map fun h => Event.add h table new)) ∧
    (∀ existing, new ≠ [] → findA rc uuid = some existing → new ≠ existing →
      applyRowUpdate handlers table (rc, evs) uuid ⟨old, new⟩ =
        (setA rc uuid new, evs ++ handlers.map fun h => Event.update h table old new)) ∧
    (new ≠ [] → findA rc uuid = some new →
      applyRowUpdate handlers table (rc, evs) uuid ⟨old, new⟩ = (rc, evs)) ∧
    (new = [] →
      applyRowUpdate handlers table (rc, evs) uuid ⟨old, new⟩ =
        (eraseA rc uuid, evs ++ handlers.map fun h => Event.delete h table old)) ∧
    (∀ (tc : TableCache) (tu : TableUpdates), (findA tu.updates table).isSome →
      (findA (populate tc tu).1.cache table).isSome) := by
  refine ⟨?_, ?_, ?_, ?_, ?_⟩
  · intro hne habs
    simp [applyRowUpdate, hne, habs]
  · intro existing hne hfound hdiff
    simp [applyRowUpdate, hne, hfound, hdiff]
  · intro hne hfound
    simp [applyRowUpdate, hne, hfound]
  · intro hemp
    simp [applyRowUpdate, hemp]
  · intro tc tu h
    exact populate_fold_cached tu.updates (tc, []) table
      (Or.inr (findA_isSome_mem tu.updates table h))

/-- Witness for C1: concrete insert and delete entries. -/
theorem cache_populate_update_semantics_witness :
    (applyRowUpdate [0] "T" ([], []) "u" ⟨[], exRow⟩ =
      (setA [] "u" exRow, List.map (fun h => Event.add h "T" exRow) [0])) ∧
    (applyRowUpdate [0] "T" ([("u", exRow)], []) "u" ⟨exRow, []⟩ =
      (eraseA [("u", exRow)] "u", List.map (fun h => Event.delete h "T" exRow) [0])) ∧
    (findA (populate exCache exBatch).1.cache "T").isSome :=
  ⟨by
    have h := (cache_populate_update_semantics [0] "T" "u" [] [] [] exRow).1
      (by simp [exRow]) rfl
    simpa using h,
   by
    have h := (cache_populate_update_semantics [0] "T" "u" [("u", exRow)] [] exRow []).2.2.2.1 rfl
    simpa using h,
   by
    have h := (cache_populate_update_semantics [0] "T" "u" [] [] [] []).2.2.2.2
      exCache exBatch (by simp [exBatch, findA])
    simpa using h⟩

/-- Counterexample to C2: re-applying the delete batch for a uuid that has
already been removed fires `OnDelete` again — the second application's
event list is non-empty, contradicting "fires no events at all". -/
theorem cache_redelete_fires_again_cex :
    (populate (populate exCache exBatch).1 exBatch).2 = [Event.delete 0 "T" exRow] := rfl

/-- C2 (amended): applying a batch with an empty-new update for a present
uuid removes that uuid and fires exactly one `OnDelete` per registered
handler; re-applying the same batch leaves the cache unchanged but fires
the same `OnDelete` events again — the delete branch does not check
presence. -/
theorem cache_empty_new_delete_amended
    (tc : TableCache) (table uuid : String) (old stored : Row) (rc : List (String × Row))
    (hrc : findA tc.cache table = some rc)
    (_hstored : findA rc uuid = some stored) :
    let batch : TableUpdates := ⟨[(table, ⟨[(uuid, ⟨old, []⟩)]⟩)]⟩
    findA ((findA (populate tc batch).1.cache table).getD []) uuid = none ∧
    (populate tc batch).2 = tc.handlers.map (fun h => Event.delete h table old) ∧
    (populate (populate tc batch).1 batch).1 = (populate tc batch).1 ∧
    (populate (populate tc batch).1 batch).2 =
      tc.handlers.map (fun h => Event.delete h table old) := by
  intro batch
  have h1 : populate tc batch =
      ({ tc with cache := setA tc.cache table (eraseA rc uuid) },
        tc.handlers.map (fun h => Event.delete h table old)) := by
    simp [populate, batch, populateTableStep, applyRowUpdate, hrc]
  have hgone : findA (eraseA rc uuid) uuid = none := by
    rw [findA_eraseA]; simp
  have hfind1 : findA (setA tc.cache table (eraseA rc uuid)) table =
      some (eraseA rc uuid) := by
    rw [findA_setA]; simp
  have h2 : populate (populate tc batch).1 batch =
      ((populate tc batch).1, tc.handlers.map (fun h => Event.delete h table old)) := by
    rw [h1]
    simp [populate, batch, populateTableStep, applyRowUpdate, hfind1,
      eraseA_noop _ _ hgone, setA_setA]
  refine ⟨?_, ?_, ?_, ?_⟩
  · rw [h1]
    simp [hfind1, hgone]
  · rw [h1]
  · rw [h2]
  · rw [h2]

/-- Witness for the amended C2 at the concrete cache and batch. -/
theorem cache_empty_new_delete_amended_witness :
    findA ((findA (populate exCache exBatch).1.cache "T").getD []) "u" = none ∧
    (populate exCache exBatch).2 = exCache.handlers.map (fun h => Event.delete h "T" exRow) :=
  have h := cache_empty_new_delete_amended exCache "T" "u" exRow exRow [("u", exRow)] rfl rfl
  ⟨h.1, h.2.1⟩

/-! ### Schema decoder theorems -/

/-- C4 (the code evaluated at the failing input): a type object with
`key: "string"` and `min: 0` decodes to the atomic extended type
`"string"` with `TypeObj.Min = 1` — the decoded `min` is dropped, so the
min/max inference can never see a `min` other than 1. The spec (and the
repository's own test fixtures, which bind `aUUIDSet` with `min: 0` to a
slice) require the extended type `set` here. -/
theorem schema_min_dropped_bug :
    unmarshalColumnSchema (.obj [("type", .obj [("key", .str "string"), ("min", .num 0)])]) =
      .ok { name := "", type := "string",
            typeObj := some { key := { type := "string" }, value := none, min := 1, max := 1 },
            ephemeral := false, mutable := false } := rfl

/-- Counterexample to C5: a type object with no `key` member makes the
decoder dereference the nil `KeyRawMsg` pointer — a runtime panic, not a
schema-parse error. -/
theorem schema_missing_key_panics_cex :
    unmarshalColumnSchema (.obj [("type", .obj [("min", .num 0)])]) =
      .panic "runtime error: invalid memory address or nil pointer dereference" := rfl

/-- C5 (amended): during column decoding, an unknown `max` string and an
unparseable `key` or `value` member each return a parse error naming the
offending field; a type object with no `key` member at all does not return
an error — it aborts with a nil-pointer panic. -/
theorem schema_decode_error_paths_amended
    (tfields : List (String × Json)) (ctj : ColumnTypeJSON)
    (hctj : decodeColumnTypeJSON (some (.obj tfields)) = some ctj) :
    (∀ s, ctj.maxRawMsg = some (.str s) → s ≠ "unlimited" →
      unmarshalColumnSchema (.obj [("type", .obj tfields)]) =
        .err ("Unknown max value " ++ s)) ∧
    (∀ maxV, decodeMax ctj.maxRawMsg = .ok maxV → ctj.keyRawMsg = none →
      unmarshalColumnSchema (.obj [("type", .obj tfields)]) =
        .panic "runtime error: invalid memory address or nil pointer dereference") ∧
    (∀ maxV kj, decodeMax ctj.maxRawMsg = .ok maxV → ctj.keyRawMsg = some kj →
      decodeKeyStep kj = .error "Cannot parse key object" →
      unmarshalColumnSchema (.obj [("type", .obj tfields)]) =
        .err "Cannot parse key object") ∧
    (∀ maxV kj key0 hk vj, decodeMax ctj.maxRawMsg = .ok maxV → ctj.keyRawMsg = some kj →
      decodeKeyStep kj = .ok (key0, hk) → ctj.valueRawMsg = some vj →
      decodeValueStep vj = .error "Cannot parse value object" →
      unmarshalColumnSchema (.obj [("type", .obj tfields)]) =
        .err "Cannot parse value object") := by
  have hcol : decodeColumnJSON (.obj [("type", .obj tfields)]) =
      some ⟨"", some (.obj tfields), false, false⟩ := rfl
  refine ⟨?_, ?_, ?_, ?_⟩
  · intro s hmax hs
    simp [unmarshalColumnSchema, hcol, hctj, hmax, decodeMax, hs]
  · intro maxV hmax hkey
    simp [unmarshalColumnSchema, hcol, hctj, hmax, hkey]
  · intro maxV kj hmax hkey hparse
    simp [unmarshalColumnSchema, hcol, hctj, hmax, hkey, hparse]
  · intro maxV kj key0 hk vj hmax hkey hkeyok hval hparse
    simp [unmarshalColumnSchema, hcol, hctj, hmax, hkey, hkeyok, hval, hparse]

/-- Witness for the amended C5: each error path at a concrete column. -/
theorem schema_decode_error_paths_amended_witness :
    unmarshalColumnSchema (.obj [("type", .obj [("key", .str "string"), ("max", .str "foo")])]) =
      .err ("Unknown max value " ++ "foo") ∧
    unmarshalColumnSchema (.obj [("type", .obj [("max", .num 5)])]) =
      .panic "runtime error: invalid memory address or nil pointer dereference" ∧
    unmarshalColumnSchema (.obj [("type", .obj [("key", .num 3)])]) =
      .err "Cannot parse key object" ∧
    unmarshalColumnSchema (.obj [("type", .obj [("key", .str "string"), ("value", .num 3)])]) =
      .err "Cannot parse value object" :=
  ⟨(schema_decode_error_paths_amended [("key", .str "string"), ("max", .str "foo")]
      ⟨some (.str "string"), none, 0, some (.str "foo")⟩ rfl).1 "foo" rfl (by decide),
   (schema_decode_error_paths_amended [("max", .num 5)]
      ⟨none, none, 0, some (.num 5)⟩ rfl).2.1 5 rfl rfl,
   (schema_decode_error_paths_amended [("key", .num 3)]
      ⟨some (.num 3), none, 0, none⟩ rfl).2.2.1 1 (.num 3) rfl rfl rfl,
   (schema_decode_error_paths_amended [("key", .str "string"), ("value", .num 3)]
      ⟨some (.str "string"), some (.num 3), 0, none⟩ rfl).2.2.2 1 (.str "string")
      { type := "string" } false (.num 3) rfl rfl rfl rfl rfl⟩

/-- C9: for every table present in the schema, `GetColumn(table, "_uuid")`
succeeds with a column of extended type uuid, whether or not the table's
column map lists `_uuid` explicitly; `GetColumn` on an absent table, or on
any other absent column, returns an error. -/
theorem schema_getcolumn_uuid (schema : DatabaseSchema) (tableName columnName : String) :
    (∀ table, findA schema.tables tableName = some table →
      DatabaseSchema.GetColumn schema tableName "_uuid" =
        .ok { name := "_uuid", type := TypeUUID }) ∧
    (findA schema.tables tableName = none →
      DatabaseSchema.GetColumn schema tableName columnName =
        .error ("Table not found in schema " ++ tableName)) ∧
    (∀ table, findA schema.tables tableName = some table → columnName ≠ "_uuid" →
      findA table.columns columnName = none →
      DatabaseSchema.GetColumn schema tableName columnName =
        .error ("Column not found in schema " ++ columnName)) := by
  refine ⟨?_, ?_, ?_⟩
  · intro table htable
    simp [DatabaseSchema.GetColumn, htable]
  · intro htable
    simp [DatabaseSchema.GetColumn, htable]
  · intro table htable hne habs
    simp [DatabaseSchema.GetColumn, htable, hne, habs]

/-- Witness for C9 at the concrete test schema (whose table does not list
`_uuid` explicitly). -/
theorem schema_getcolumn_uuid_witness :
    DatabaseSchema.GetColumn condSchema "TestTable" "_uuid" =
      .ok { name := "_uuid", type := TypeUUID } ∧
    DatabaseSchema.GetColumn condSchema "NoSuchTable" "name" =
      .error ("Table not found in schema " ++ "NoSuchTable") ∧
    DatabaseSchema.GetColumn condSchema "TestTable" "missing" =
      .error ("Column not found in schema " ++ "missing") :=
  ⟨(schema_getcolumn_uuid condSchema "TestTable" "_uuid").1 condTable rfl,
   (schema_getcolumn_uuid condSchema "NoSuchTable" "name").2.1 rfl,
   (schema_getcolumn_uuid condSchema "TestTable" "missing").2.2 condTable rfl
     (by decide) rfl⟩

/-! ### Field-map soundness -/

theorem getORMFieldsGo_sound (table : TableSchema) (fields : List StructField)
    (acc fm : List (String × String)) (h : getORMFieldsGo table fields acc = .ok fm)
    (col fn : String) (hfind : findA fm col = some fn) :
    findA acc col = some fn ∨
      ((∃ c, TableSchema.GetColumn table col = .ok c) ∧
        ∃ g ∈ fields, g.tag = col ∧ g.fname = fn ∧ col ≠ "") := by
  induction fields generalizing acc with
  | nil =>
    simp only [getORMFieldsGo] at h
    cases h
    exact Or.inl hfind
  | cons field rest ih =>
    simp only [getORMFieldsGo] at h
    by_cases htag : field.tag = ""
    · rw [if_pos htag] at h
      rcases ih acc h with h' | ⟨hc, g, hg, hgs⟩
      · exact Or.inl h'
      · exact Or.inr ⟨hc, g, List.mem_cons_of_mem _ hg, hgs⟩
    · rw [if_neg htag] at h
      split at h
      · cases h
      · next column heq =>
        split at h
        · next expType heq2 =>
          by_cases hshape : expType = field.shape
          · rw [if_pos hshape] at h
            rcases ih (setA acc field.tag field.fname) h with h' | ⟨hc, g, hg, hgs⟩
            · rw [findA_setA] at h'
              by_cases htagcol : field.tag = col
              · rw [if_pos htagcol] at h'
                cases h'
                exact Or.inr ⟨⟨column, htagcol ▸ heq⟩,
                  field, List.mem_cons_self _ _, htagcol, rfl, htagcol ▸ htag⟩
              · rw [if_neg htagcol] at h'
                exact Or.inl h'
            · exact Or.inr ⟨hc, g, List.mem_cons_of_mem _ hg, hgs⟩
          · rw [if_neg hshape] at h
            cases h
        · cases h

theorem getORMFields_sound (table : TableSchema) (rec : StructVal)
    (fm : List (String × String)) (h : getORMFields table rec = .ok fm)
    (col fn : String) (hfind : findA fm col = some fn) :
    (∃ c, TableSchema.GetColumn table col = .ok c) ∧
      ∃ g ∈ rec, g.tag = col ∧ g.fname = fn ∧ col ≠ "" := by
  rcases getORMFieldsGo_sound table rec [] fm h col fn hfind with h' | h'
  · simp [findA] at h'
  · exact h'

/-- A field-map entry names a field of the record, so `findField` on the
recorded field name succeeds. -/
theorem getORMFields_findField (table : TableSchema) (rec : StructVal)
    (fm : List (String × String)) (h : getORMFields table rec = .ok fm)
    (col fn : String) (hfind : findA fm col = some fn) :
    ∃ f, findField rec fn = some f := by
  rcases getORMFields_sound table rec fm h col fn hfind with ⟨_, g, hg, _, hgs, _⟩
  have hsome : (findField rec fn).isSome := by
    unfold findField
    exact List.find?_isSome.mpr ⟨g, hg, by simp [hgs]⟩
  exact Option.isSome_iff_exists.mp hsome

/-! ### C3: the condition-construction refinement -/

theorem allCongrOfMem {α : Type _} (l : List α) (p q : α → Bool)
    (h : ∀ x ∈ l, p x = q x) : l.all p = l.all q := by
  induction l with
  | nil => rfl
  | cons a as ih =>
    simp only [List.all_cons, h a (List.mem_cons_self _ _),
      ih (fun x hx => h x (List.mem_cons_of_mem _ hx))]

theorem validIndexColumn_eq_spec (table : TableSchema) (fm : List (String × String))
    (rec : StructVal) (col : String)
    (hsound : ∀ fn, findA fm col = some fn → ∃ c, TableSchema.GetColumn table col = .ok c) :
    validIndexColumn table fm rec col =
      (match findA fm col with
        | none => false
        | some fieldName =>
          match findField rec fieldName with
          | none => false
          | some f => ! isDefaultNative f.value) := by
  cases hf : findA fm col with
  | none => simp [validIndexColumn, hf]
  | some fn =>
    rcases hsound fn hf with ⟨c, hc⟩
    simp only [validIndexColumn, hf, hc]
    cases findField rec fn with
    | none => rfl
    | some f => rfl

theorem newConditionCells_eq_spec (schema : DatabaseSchema) (tableName : String)
    (fm : List (String × String)) (rec : StructVal) (idx : List String)
    (hvalid : ∀ col ∈ idx, ∃ fn f, findA fm col = some fn ∧ findField rec fn = some f) :
    ∀ acc, newConditionCells schema tableName fm rec idx acc =
      (match specCells schema tableName fm rec idx with
        | .ok cells => .ok (acc ++ cells)
        | .err e => .err e
        | .panic p => .panic p) := by
  induction idx with
  | nil => intro acc; simp [newConditionCells, specCells]
  | cons col rest ih =>
    intro acc
    rcases hvalid col (List.mem_cons_self _ _) with ⟨fn, f, hfn, hf⟩
    have hrest : ∀ col ∈ rest, ∃ fn f, findA fm col = some fn ∧ findField rec fn = some f :=
      fun c hc => hvalid c (List.mem_cons_of_mem _ hc)
    cases hcol : DatabaseSchema.GetColumn schema tableName col with
    | error e => simp [newConditionCells, specCells, hfn, hf, hcol]
    | ok column =>
      cases hovs : NativeToOvs column f.value with
      | error e => simp [newConditionCells, specCells, hfn, hf, hcol, hovs]
      | ok ovsVal =>
        simp only [newConditionCells, specCells, hfn, Option.getD_some, hf, hcol, hovs]
        rw [ih hrest]
        cases specCells schema tableName fm rec rest with
        | ok cells => simp
        | err e => rfl
        | panic p => rfl

/-- C3: for every call `NewCondition(table, record)` with no index
override, the result is exactly what the specification prescribes: the
candidate list is `[_uuid]` followed by the declared indexes in schema
order, a candidate is valid iff every column is bound by a tagged field
holding a non-default value, the condition cells `[column, "==",
wireValue]` are built from the first valid candidate, and no valid
candidate yields the NoValidIndex error. -/
theorem orm_newcondition_first_valid_index (schema : DatabaseSchema) (tableName : String)
    (rec : StructVal) :
    NewCondition schema tableName rec [] = NewConditionSpec schema tableName rec := by
  cases htable : findA schema.tables tableName with
  | none => simp [NewCondition, NewConditionSpec, htable]
  | some table =>
    simp only [NewCondition, NewConditionSpec, htable]
    cases hfm : getORMFields table rec with
    | error e => simp [hfm]
    | ok fm =>
      simp only [hfm, ne_eq, not_true_eq_false, if_false, getValidORMIndexes]
      have hfilter : (["_uuid"] :: table.indexes).filter
            (fun idx => idx.all (validIndexColumn table fm rec)) =
          (["_uuid"] :: table.indexes).filter (specValidCandidate fm rec) := by
        apply List.filter_congr
        intro idx _
        unfold specValidCandidate
        apply allCongrOfMem
        intro col _
        exact validIndexColumn_eq_spec table fm rec col
          (fun fn hfn => (getORMFields_sound table rec fm hfm col fn hfn).1)
      rw [hfilter]
      cases hv : (["_uuid"] :: table.indexes).filter (specValidCandidate fm rec) with
      | nil => rfl
      | cons idx rest =>
        have hidx : specValidCandidate fm rec idx = true := by
          have hmem : idx ∈ (["_uuid"] :: table.indexes).filter (specValidCandidate fm rec) := by
            rw [hv]; exact List.mem_cons_self _ _
          exact (List.mem_filter.mp hmem).2
        have hvalid : ∀ col ∈ idx, ∃ fn f, findA fm col = some fn ∧ findField rec fn = some f := by
          intro col hcol
          have hcolv := (List.all_eq_true.mp hidx) col hcol
          cases hfn : findA fm col with
          | none => simp [hfn] at hcolv
          | some fn =>
            cases hf : findField rec fn with
            | none => simp [hfn, hf] at hcolv
            | some f => exact ⟨fn, f, rfl, hf⟩
        show newConditionCells schema tableName fm rec idx [] =
          specCells schema tableName fm rec idx
        rw [newConditionCells_eq_spec schema tableName fm rec idx hvalid []]
        cases specCells schema tableName fm rec idx with
        | ok cells => simp
        | err e => rfl
        | panic p => rfl

/-! ### C10: index override without a bound field -/

/-- C10: if `NewCondition` is called with a non-empty index override whose
column the table schema resolves (including `_uuid`) but that no tagged
field of the record binds, no error is returned: the override is used
verbatim without validating that its columns are bound or non-default, and
reading the record's field for the unbound column aborts with a runtime
panic (`reflect.Value.Interface` on an invalid value). -/
theorem orm_newcondition_override_panics (schema : DatabaseSchema) (tableName : String)
    (rec : StructVal) (table : TableSchema) (fm : List (String × String))
    (col : String) (rest : List String) (c : ColumnSchema)
    (htable : findA schema.tables tableName = some table)
    (hfm : getORMFields table rec = .ok fm)
    (hresolve : DatabaseSchema.GetColumn schema tableName col = .ok c)
    (hunbound : findA fm col = none)
    (hwf : ∀ f ∈ rec, f.fname ≠ "") :
    NewCondition schema tableName rec (col :: rest) =
      .panic "reflect: call of reflect.Value.Interface on zero Value" := by
  have hnf : findField rec "" = none := by
    unfold findField
    apply List.find?_eq_none.mpr
    intro f hf
    simp [hwf f hf]
  simp [NewCondition, htable, hfm, newConditionCells, hunbound, hresolve, hnf]

/-- Witness for C10: overriding with `_uuid` against a record that binds
only `name` panics. -/
theorem orm_newcondition_override_panics_witness :
    NewCondition condSchema "TestTable" nameOnlyRec ["_uuid"] =
      .panic "reflect: call of reflect.Value.Interface on zero Value" :=
  orm_newcondition_override_panics condSchema "TestTable" nameOnlyRec condTable
    [("name", "MyName")] "_uuid" [] { name := "_uuid", type := TypeUUID }
    rfl rfl rfl rfl (by intro f hf; simp only [nameOnlyRec, List.mem_singleton] at hf; subst hf; simp)

/-! ### C8: Equal is symmetric and monotone in the extra indexes -/

theorem scanCols_symm (lf rf : List (String × String)) (lr rr : StructVal)
    (cols : List String) (m : Bool) :
    scanCols rf lf rr lr cols m = scanCols lf rf lr rr cols m := by
  induction cols generalizing m with
  | nil => rfl
  | cons col rest ih =>
    cases hl : findA lf col with
    | none =>
      cases hr : findA rf col with
      | none => simp [scanCols, hl, hr]
      | some rfn => simp [scanCols, hl, hr]
    | some lfn =>
      cases hr : findA rf col with
      | none => simp [scanCols, hl, hr]
      | some rfn =>
        simp only [scanCols, hl, hr]
        by_cases heq : getFieldValue lr lfn = getFieldValue rr rfn
        · rw [if_pos heq, if_pos heq.symm, ih]
        · rw [if_neg heq, if_neg (fun h => heq h.symm)]

theorem equalInner_no_true_snd (lf rf : List (String × String)) (lr rr : StructVal)
    (lidx : List String) :
    ∀ R : List (List String), (equalInner lf rf lr rr lidx R false).1 = false →
      (equalInner lf rf lr rr lidx R false).2 = false := by
  intro R
  induction R with
  | nil => intro _; rfl
  | cons ridx rest ih =>
    intro h
    by_cases he : ridx = lidx
    · cases hm : scanCols lf rf lr rr lidx false with
      | true =>
        simp only [equalInner, if_pos he, hm] at h
        cases h
      | false =>
        simp only [equalInner, if_pos he, hm] at h ⊢
        exact ih h
    · simp only [equalInner, if_neg he] at h ⊢
      exact ih h

theorem equalInner_true_iff (lf rf : List (String × String)) (lr rr : StructVal)
    (lidx : List String) :
    ∀ R : List (List String), (equalInner lf rf lr rr lidx R false).1 = true ↔
      (lidx ∈ R ∧ scanCols lf rf lr rr lidx false = true) := by
  intro R
  induction R with
  | nil => simp [equalInner]
  | cons ridx rest ih =>
    by_cases he : ridx = lidx
    · subst he
      cases hm : scanCols lf rf lr rr ridx false with
      | true => simp [equalInner, hm]
      | false => simp [equalInner, hm, ih]
    · simp only [equalInner, if_neg he, ih]
      constructor
      · rintro ⟨hmem, hscan⟩
        exact ⟨List.mem_cons_of_mem _ hmem, hscan⟩
      · rintro ⟨hmem, hscan⟩
        rcases List.mem_cons.mp hmem with h | h
        · exact absurd h.symm he
        · exact ⟨h, hscan⟩

theorem equalOuter_true_iff (lf rf : List (String × String)) (lr rr : StructVal)
    (R : List (List String)) :
    ∀ L : List (List String), equalOuter lf rf lr rr R L false = true ↔
      ∃ lidx ∈ L, lidx ∈ R ∧ scanCols lf rf lr rr lidx false = true := by
  intro L
  induction L with
  | nil => simp [equalOuter]
  | cons lidx rest ih =>
    cases hinner : equalInner lf rf lr rr lidx R false with
    | mk b m' =>
      by_cases hb : b = true
      · subst hb
        simp only [equalOuter, hinner]
        constructor
        · intro _
          have := (equalInner_true_iff lf rf lr rr lidx R).mp (by rw [hinner])
          exact ⟨lidx, List.mem_cons_self _ _, this⟩
        · intro _; trivial
      · have hb' : b = false := Bool.eq_false_iff.mpr hb
        subst hb'
        have hm' : m' = false := by
          have := equalInner_no_true_snd lf rf lr rr lidx R (by rw [hinner])
          rw [hinner] at this
          exact this
        subst hm'
        simp only [equalOuter, hinner, ih]
        constructor
        · rintro ⟨i, hi, hir, hscan⟩
          exact ⟨i, List.mem_cons_of_mem _ hi, hir, hscan⟩
        · rintro ⟨i, hi, hir, hscan⟩
          rcases List.mem_cons.mp hi with h | h
          · subst h
            have : (equalInner lf rf lr rr i R false).1 = true :=
              (equalInner_true_iff lf rf lr rr i R).mpr ⟨hir, hscan⟩
            rw [hinner] at this
            cases this
          · exact ⟨i, h, hir, hscan⟩

/-- C8: for every table, records and extra index list `X`:
`Equal(Tbl, a, b, X)` equals `Equal(Tbl, b, a, X)` (as the boolean a Go
caller sees), and whenever `Equal(Tbl, a, b)` returns true,
`Equal(Tbl, a, b, X)` also returns true for every `X`. -/
theorem orm_equal_symm_monotone (schema : DatabaseSchema) (tableName : String)
    (a b : StructVal) (X : List String) :
    equalDecision (Equal schema tableName a b X) =
      equalDecision (Equal schema tableName b a X) ∧
    (Equal schema tableName a b [] = .ok true → Equal schema tableName a b X = .ok true) := by
  constructor
  · cases htable : findA schema.tables tableName with
    | none => simp [Equal, htable, equalDecision]
    | some table =>
      cases hfa : getORMFields table a with
      | error e =>
        cases hfb : getORMFields table b with
        | error e2 => simp [Equal, htable, hfa, hfb, equalDecision]
        | ok fb => simp [Equal, htable, hfa, hfb, equalDecision]
      | ok fa =>
        cases hfb : getORMFields table b with
        | error e2 => simp [Equal, htable, hfa, hfb, equalDecision]
        | ok fb =>
          simp only [Equal, htable, hfa, hfb, equalDecision]
          rw [Bool.eq_iff_iff]
          rw [equalOuter_true_iff, equalOuter_true_iff]
          constructor
          · rintro ⟨lidx, hL, hR, hscan⟩
            exact ⟨lidx, hR, hL, by rw [scanCols_symm]; exact hscan⟩
          · rintro ⟨lidx, hL, hR, hscan⟩
            exact ⟨lidx, hR, hL, by rw [← scanCols_symm]; exact hscan⟩
  · intro h
    cases htable : findA schema.tables tableName with
    | none => rw [Equal.eq_def, htable] at h; cases h
    | some table =>
      cases hfa : getORMFields table a with
      | error e => rw [Equal.eq_def, htable] at h; simp only [hfa] at h; cases h
      | ok fa =>
        cases hfb : getORMFields table b with
        | error e2 => rw [Equal.eq_def, htable] at h; simp only [hfa, hfb] at h; cases h
        | ok fb =>
          rw [Equal.eq_def, htable] at h
          simp only [hfa, hfb, Except.ok.injEq] at h
          rw [equalOuter_true_iff] at h
          rcases h with ⟨lidx, hL, hR, hscan⟩
          have hne : lidx ≠ [] := by
            intro hnil
            subst hnil
            simp [scanCols] at hscan
          have hL' : lidx ∈ getValidORMIndexes table fa a := by
            rcases List.mem_append.mp hL with h | h
            · exact h
            · simp only [List.mem_singleton] at h
              exact absurd h hne
          have hR' : lidx ∈ getValidORMIndexes table fb b := by
            rcases List.mem_append.mp hR with h | h
            · exact h
            · simp only [List.mem_singleton] at h
              exact absurd h hne
          simp only [Equal, htable, hfa, hfb, Except.ok.injEq]
          rw [equalOuter_true_iff]
          exact ⟨lidx, List.mem_append.mpr (Or.inl hL'),
            List.mem_append.mpr (Or.inl hR'), hscan⟩

/-- Witness for C8: the monotonicity conjunct applied at concrete equal
records, adding the extra index `int1`. -/
theorem orm_equal_symm_monotone_witness :
    Equal condSchema "TestTable" (mkCondRec "" "foo" "" "" 0) (mkCondRec "" "foo" "" "" 0)
      ["int1"] = .ok true :=
  (orm_equal_symm_monotone condSchema "TestTable" (mkCondRec "" "foo" "" "" 0)
    (mkCondRec "" "foo" "" "" 0) ["int1"]).2 rfl

/-! ### C7: the frame property of GetData -/

theorem fields_unique_of_nodup (rec : StructVal) (hnn : (rec.map StructField.fname).Nodup)
    (f g : StructField) (hf : f ∈ rec) (hg : g ∈ rec) (heq : f.fname = g.fname) : f = g :=
  List.inj_on_of_nodup_map hnn hf hg heq

theorem forall2_frame_set (table : TableSchema) (ovsData : List (String × OvsValue))
    (rec rec0 : StructVal) (hnn : (rec.map StructField.fname).Nodup)
    (hrel : List.Forall₂ (getDataFrame table ovsData) rec rec0)
    (fn : String) (v : NativeValue) (g : StructField) (hg : g ∈ rec)
    (hgfn : g.fname = fn) (hgtag : g.tag ≠ "")
    (column : ColumnSchema) (w : OvsValue)
    (hcol : findA table.columns g.tag = some column)
    (hw : findA ovsData g.tag = some w)
    (hconv : OvsToNative column w = .ok v) :
    List.Forall₂ (getDataFrame table ovsData) rec (setFieldValue rec0 fn v) := by
  rw [List.forall₂_iff_get] at hrel ⊢
  obtain ⟨hlen, hrel⟩ := hrel
  have hlen' : rec.length = (setFieldValue rec0 fn v).length := by
    simp [setFieldValue, hlen]
  refine ⟨hlen', ?_⟩
  intro i h1 h2
  have h2' : i < rec0.length := by simpa [setFieldValue] using h2
  have hfi := hrel i h1 h2'
  have hget : (setFieldValue rec0 fn v).get ⟨i, h2⟩ =
      (if (rec0.get ⟨i, h2'⟩).fname = fn then { rec0.get ⟨i, h2'⟩ with value := v }
        else rec0.get ⟨i, h2'⟩) := by
    simp [setFieldValue]
  rw [hget]
  by_cases hcond : (rec0.get ⟨i, h2'⟩).fname = fn
  · rw [if_pos hcond]
    obtain ⟨hn, ht, hs, _⟩ := hfi
    have hfname : (rec.get ⟨i, h1⟩).fname = fn := by rw [← hn, hcond]
    have hmem : rec.get ⟨i, h1⟩ ∈ rec := rec.get_mem _ _
    have hfeq : rec.get ⟨i, h1⟩ = g :=
      fields_unique_of_nodup rec hnn _ g hmem hg (by rw [hfname, hgfn])
    refine ⟨by simpa using hn, by simpa using ht, by simpa using hs, Or.inr ?_⟩
    rw [hfeq]
    exact ⟨hgtag, column, w, hcol, hw, hconv⟩
  · rw [if_neg hcond]
    exact hfi

theorem getDataGo_frame (table : TableSchema) (fm : List (String × String))
    (ovsData : List (String × OvsValue)) (tableName : String) (rec : StructVal)
    (hnn : (rec.map StructField.fname).Nodup)
    (hfm : ∀ col fn, findA fm col = some fn →
      ∃ g ∈ rec, g.tag = col ∧ g.fname = fn ∧ col ≠ "") :
    ∀ (cs : List (String × ColumnSchema)) (rec0 rec' : StructVal),
      (∀ p ∈ cs, findA table.columns p.1 = some p.2) →
      getDataGo fm ovsData tableName cs rec0 = .ok rec' →
      List.Forall₂ (getDataFrame table ovsData) rec rec0 →
      List.Forall₂ (getDataFrame table ovsData) rec rec' := by
  intro cs
  induction cs with
  | nil =>
    intro rec0 rec' _ h hrel
    simp only [getDataGo] at h
    cases h
    exact hrel
  | cons p rest ih =>
    obtain ⟨name, column⟩ := p
    intro rec0 rec' hsub h hrel
    have hsubr : ∀ p ∈ rest, findA table.columns p.1 = some p.2 :=
      fun q hq => hsub q (List.mem_cons_of_mem _ hq)
    simp only [getDataGo] at h
    split at h
    · exact ih rec0 rec' hsubr h hrel
    · next fieldName hb =>
      split at h
      · exact ih rec0 rec' hsubr h hrel
      · next ovsElem hov =>
        split at h
        · cases h
        · next nativeElem hnat =>
          split at h
          · cases h
          · next f hff =>
            split at h
            · rcases hfm name fieldName hb with ⟨g, hg, hgt, hgfn, hgne⟩
              apply ih _ rec' hsubr h
              exact forall2_frame_set table ovsData rec rec0 hnn hrel fieldName nativeElem
                g hg hgfn (hgt ▸ hgne) column ovsElem
                (by rw [hgt]; exact hsub (name, column) (List.mem_cons_self _ _))
                (by rw [hgt]; exact hov) hnat
            · cases h

theorem mem_findA_isSome {α : Type _} (l : List (String × α)) (k : String)
    (h : k ∈ l.map Prod.fst) : (findA l k).isSome := by
  induction l with
  | nil => simp at h
  | cons hd tl ih =>
    obtain ⟨hk, hv⟩ := hd
    by_cases h1 : hk = k
    · simp [findA, h1]
    · simp only [List.map_cons, List.mem_cons] at h
      rcases h with h | h
      · exact absurd h.symm h1
      · simp only [findA, if_neg h1]
        exact ih h

theorem findA_mem_nodup {α : Type _} (l : List (String × α))
    (hn : (l.map Prod.fst).Nodup) (p : String × α) (hp : p ∈ l) :
    findA l p.1 = some p.2 := by
  induction l with
  | nil => simp at hp
  | cons hd tl ih =>
    obtain ⟨hk, hv⟩ := hd
    simp only [List.map_cons, List.nodup_cons] at hn
    rcases List.mem_cons.mp hp with h | h
    · subst h
      simp [findA]
    · have hne : hk ≠ p.1 := by
        intro hcontra
        exact hn.1 (hcontra ▸ (List.mem_map.mpr ⟨p, h, rfl⟩))
      simp only [findA, if_neg hne]
      exact ih hn.2 h

/-- C7: for every successful `GetData(table, wireRow, record)` call, each
result field keeps the input field's name, tag and declared shape, and its
value is either unchanged (in particular for untagged fields and for fields
whose column is absent from the wire row) or the marshalled wire value of
the column bound by its own tag; wire columns with no binding have no
effect. -/
theorem orm_getdata_frame (schema : DatabaseSchema) (tableName : String)
    (ovsData : List (String × OvsValue)) (rec rec' : StructVal) (table : TableSchema)
    (htable : findA schema.tables tableName = some table)
    (hnodupcols : (table.columns.map Prod.fst).Nodup)
    (hnn : (rec.map StructField.fname).Nodup)
    (h : GetData schema tableName ovsData rec = .ok rec') :
    List.Forall₂ (getDataFrame table ovsData) rec rec' := by
  have h' : (match getORMFields table rec with
      | .error e => Except.error e
      | .ok fields => getDataGo fields ovsData tableName table.columns rec) =
      Except.ok rec' := by
    rw [GetData.eq_def, htable] at h
    exact h
  split at h'
  · cases h'
  · next fm hfm =>
    apply getDataGo_frame table fm ovsData tableName rec hnn
      (fun col fn hx => (getORMFields_sound table rec fm hfm col fn hx).2)
      table.columns rec rec'
      (fun p hp => findA_mem_nodup table.columns hnodupcols p hp) h'
    exact List.forall₂_same.mpr fun f _ => ⟨rfl, rfl, rfl, Or.inl rfl⟩

/-- Witness for C7 at a concrete wire row and record. -/
theorem orm_getdata_frame_witness :
    List.Forall₂ (getDataFrame condTable [("name", .atom (.str "x"))]) nameOnlyRec
      [⟨"MyName", "name", .atom .str, .atom (.str "x")⟩] :=
  orm_getdata_frame condSchema "TestTable" [("name", .atom (.str "x"))] nameOnlyRec
    [⟨"MyName", "name", .atom .str, .atom (.str "x")⟩] condTable rfl
    (by decide) (by decide) rfl

/-! ### C6: the contents of NewRow -/

/-- Counterexample to C6: a record binding `_uuid` with a non-default value
is a bound column with a non-default value, yet the produced row is empty —
`NewRow` iterates only the table's declared column map, which does not
contain the synthesized `_uuid`. -/
theorem orm_newrow_uuid_omitted_cex :
    getORMFields condTable uuidOnlyRec = .ok [("_uuid", "ID")] ∧
    IsDefaultValue { name := "_uuid", type := TypeUUID }
      (getFieldValue uuidOnlyRec "ID") = false ∧
    NewRow condSchema "TestTable" uuidOnlyRec [] = .ok [] :=
  ⟨rfl, rfl, rfl⟩

theorem findA_none_of_not_mem {α : Type _} (l : List (String × α)) (k : String)
    (h : k ∉ l.map Prod.fst) : findA l k = none := by
  cases hf : findA l k with
  | none => rfl
  | some v => exact absurd (findA_isSome_mem l k (by simp [hf])) h

theorem newRowGo_mem (fm : List (String × String)) (rec : StructVal) (cols : List String)
    (tableName : String) :
    ∀ (cs : List (String × ColumnSchema)) (row0 row' : List (String × OvsValue)),
      (cs.map Prod.fst).Nodup →
      newRowGo fm rec cols tableName cs row0 = .ok row' →
      ∀ c, (findA row' c).isSome ↔
        ((findA row0 c).isSome ∨
          ∃ column fn, findA cs c = some column ∧ findA fm c = some fn ∧
            (cols = [] → IsDefaultValue column (getFieldValue rec fn) = false) ∧
            (cols ≠ [] → c ∈ cols)) := by
  intro cs
  induction cs with
  | nil =>
    intro row0 row' _ h c
    simp only [newRowGo] at h
    cases h
    simp [findA]
  | cons p rest ih =>
    obtain ⟨name, column⟩ := p
    intro row0 row' hnodup h c
    simp only [List.map_cons, List.nodup_cons] at hnodup
    obtain ⟨hnotin, hnodup'⟩ := hnodup
    have hrestnone : findA rest name = none :=
      findA_none_of_not_mem rest name hnotin
    simp only [newRowGo] at h
    split at h
    next hb =>
      rw [ih row0 row' hnodup' h c]
      by_cases hcn : name = c
      · subst hcn
        constructor
        · rintro (h0 | ⟨column', fn, hcs, hfm', hrest⟩)
          · exact Or.inl h0
          · rw [hrestnone] at hcs; cases hcs
        · rintro (h0 | ⟨column', fn, hcs, hfm', hrest⟩)
          · exact Or.inl h0
          · rw [hb] at hfm'; cases hfm'
      · simp [findA, hcn]
    next fieldName hb =>
      split at h
      · next hskip =>
        rw [ih row0 row' hnodup' h c]
        by_cases hcn : name = c
        · subst hcn
          obtain ⟨hc1, hc2⟩ := hskip
          constructor
          · rintro (h0 | ⟨column', fn, hcs, hfm', hrest⟩)
            · exact Or.inl h0
            · rw [hrestnone] at hcs; cases hcs
          · rintro (h0 | ⟨column', fn, hcs, hfm', hdef, hsel⟩)
            · exact Or.inl h0
            · exact absurd (hsel hc1) hc2
        · simp [findA, hcn]
      · next hskip =>
        split at h
        · next hdef =>
          obtain ⟨hc1, hc2⟩ := hdef
          rw [ih row0 row' hnodup' h c]
          by_cases hcn : name = c
          · subst hcn
            constructor
            · rintro (h0 | ⟨column', fn, hcs, hfm', hrest⟩)
              · exact Or.inl h0
              · rw [hrestnone] at hcs; cases hcs
            · rintro (h0 | ⟨column', fn, hcs, hfm', hdef', hsel⟩)
              · exact Or.inl h0
              · simp only [findA, if_pos rfl] at hcs
                cases hcs
                rw [hb] at hfm'
                cases hfm'
                rw [hdef' hc1] at hc2
                cases hc2
          · simp [findA, hcn]
        · next hdef =>
          split at h
          · cases h
          · next w hw =>
            rw [ih (setA row0 name w) row' hnodup' h c]
            by_cases hcn : name = c
            · subst hcn
              constructor
              · intro _
                refine Or.inr ⟨column, fieldName, by simp [findA], hb, ?_, ?_⟩
                · intro hce
                  exact Bool.eq_false_iff.mpr fun ht => hdef ⟨hce, ht⟩
                · intro hcne
                  by_contra hnm
                  exact hskip ⟨hcne, hnm⟩
              · intro _
                apply Or.inl
                rw [findA_setA]
                simp
            · rw [findA_setA, if_neg hcn]
              simp [findA, hcn]

theorem newRowGo_skip_unknown (fm : List (String × String)) (rec : StructVal)
    (cols junk : List String) (tableName : String) (hcols : cols ≠ []) :
    ∀ (cs : List (String × ColumnSchema)) (row0 : List (String × OvsValue)),
      (∀ p ∈ cs, p.1 ∉ junk) →
      newRowGo fm rec (cols ++ junk) tableName cs row0 =
        newRowGo fm rec cols tableName cs row0 := by
  intro cs
  induction cs with
  | nil => intro row0 _; rfl
  | cons p rest ih =>
    obtain ⟨name, column⟩ := p
    intro row0 hj
    have hjr : ∀ p ∈ rest, p.1 ∉ junk := fun q hq => hj q (List.mem_cons_of_mem _ hq)
    have hjn : name ∉ junk := hj (name, column) (List.mem_cons_self _ _)
    have happne : cols ++ junk ≠ [] := fun hc => hcols (List.append_eq_nil.mp hc).1
    have hmemiff : name ∈ cols ++ junk ↔ name ∈ cols := by
      rw [List.mem_append]
      exact ⟨fun hc => hc.resolve_right fun hc' => hjn hc', Or.inl⟩
    simp only [newRowGo]
    cases findA fm name with
    | none => exact ih row0 hjr
    | some fieldName =>
      simp only []
      by_cases hm : name ∈ cols
      · rw [if_neg (show ¬(cols ++ junk ≠ [] ∧ name ∉ cols ++ junk) from
              fun hc => hc.2 (hmemiff.mpr hm)),
          if_neg (show ¬(cols ≠ [] ∧ name ∉ cols) from fun hc => hc.2 hm),
          if_neg (show ¬(cols ++ junk = [] ∧
              IsDefaultValue column (getFieldValue rec fieldName) = true) from
            fun hc => happne hc.1),
          if_neg (show ¬(cols = [] ∧
              IsDefaultValue column (getFieldValue rec fieldName) = true) from
            fun hc => hcols hc.1)]
        cases NativeToOvs column (getFieldValue rec fieldName) with
        | error e => rfl
        | ok w => exact ih (setA row0 name w) hjr
      · rw [if_pos ⟨happne, fun hc => hm (hmemiff.mp hc)⟩, if_pos ⟨hcols, hm⟩]
        exact ih row0 hjr

/-- C6 (amended): for every successful `NewRow(table, record,
selectedColumns...)` call: when `selectedColumns` is empty the produced row
contains exactly the columns of the table's declared column map that are
bound and whose current native value is not the default (the synthesized
`_uuid` is never emitted, even when bound and non-default); when
`selectedColumns` is non-empty the row contains exactly the declared
columns that are both bound and listed, regardless of defaults; and listed
names that are not declared columns are skipped silently — dropping them
from the list does not change the result. -/
theorem orm_newrow_contents_amended (schema : DatabaseSchema) (tableName : String)
    (table : TableSchema) (rec : StructVal) (cols : List String)
    (row : List (String × OvsValue)) (fm : List (String × String))
    (htable : findA schema.tables tableName = some table)
    (hfm : getORMFields table rec = .ok fm)
    (hnodup : (table.columns.map Prod.fst).Nodup)
    (h : NewRow schema tableName rec cols = .ok row) :
    (∀ c, (findA row c).isSome ↔
      ∃ column fn, findA table.columns c = some column ∧ findA fm c = some fn ∧
        (cols = [] → IsDefaultValue column (getFieldValue rec fn) = false) ∧
        (cols ≠ [] → c ∈ cols)) ∧
    (∀ junk, cols ≠ [] → (∀ j ∈ junk, findA table.columns j = none) →
      NewRow schema tableName rec (cols ++ junk) = NewRow schema tableName rec cols) := by
  have h' : newRowGo fm rec cols tableName table.columns [] = .ok row := by
    rw [NewRow.eq_def, htable] at h
    have h2 : (match getORMFields table rec with
        | .error e => Except.error e
        | .ok fields => newRowGo fields rec cols tableName table.columns []) =
        Except.ok row := h
    rw [hfm] at h2
    exact h2
  constructor
  · intro c
    rw [newRowGo_mem fm rec cols tableName table.columns [] row hnodup h' c]
    simp [findA]
  · intro junk hcols hjunk
    have hj : ∀ p ∈ table.columns, p.1 ∉ junk := by
      intro p hp hmem
      have h1 : (findA table.columns p.1).isSome :=
        mem_findA_isSome table.columns p.1 (List.mem_map.mpr ⟨p, hp, rfl⟩)
      rw [hjunk p.1 hmem] at h1
      cases h1
    simp only [NewRow, htable, hfm]
    exact newRowGo_skip_unknown fm rec cols junk tableName hcols table.columns [] hj

/-- Witness for the amended C6 at a concrete record and column lists. -/
theorem orm_newrow_contents_amended_witness :
    ((findA [("name", OvsValue.atom (.str "foo"))] "name").isSome ↔
      ∃ column fn, findA condTable.columns "name" = some column ∧
        findA [("name", "MyName")] "name" = some fn ∧
        (([] : List String) = [] →
          IsDefaultValue column (getFieldValue nameOnlyRec fn) = false) ∧
        (([] : List String) ≠ [] → "name" ∈ ([] : List String))) ∧
    NewRow condSchema "TestTable" nameOnlyRec (["name"] ++ ["nonexisting"]) =
      NewRow condSchema "TestTable" nameOnlyRec ["name"] :=
  ⟨(orm_newrow_contents_amended condSchema "TestTable" condTable nameOnlyRec []
      [("name", OvsValue.atom (.str "foo"))] [("name", "MyName")] rfl rfl
      (by decide) rfl).1 "name",
   (orm_newrow_contents_amended condSchema "TestTable" condTable nameOnlyRec ["name"]
      [("name", OvsValue.atom (.str "foo"))] [("name", "MyName")] rfl rfl
      (by decide) rfl).2 ["nonexisting"] (by decide) (by
        intro j hj
        simp only [List.mem_singleton] at hj
        subst hj
        rfl)⟩

end Libovsdb
